import Mathlib

/-
Verification of the helioschat/sync synchronization engine
(internal/database/redis.go (services part), internal/handlers/sync.go,
internal/types/types.go) against its natural-language specification.

The Redis keyspace is embedded as a typed store: each key namespace
(threads:<user>:<id>, messages:<thread>:<id>, provider_instances:<user>,
disabled_models:<user>, advanced_settings:<user>, machine_id:<kind>:<id>:<ms>,
message_changes:<id>:<ms>, timestamps:threads:<user>) becomes an association
list keyed by the structured key components.  Redis SET overwrites the value
at a key (alistSet), DEL removes it (alistErase), KEYS <prefix>* enumerates a
namespace (filterMap over the list).  Go time.Time values are embedded as
integers counting milliseconds since the Go zero instant (January 1, year 1),
so that time.Time.IsZero (t = 0) and time.UnixMilli
(ms + 62135596800000) keep their exact Go semantics, including the fact that
time.UnixMilli 0 is NOT the zero time.  Encrypted, server-opaque fields are
collapsed into a single opaque payload string; the server never inspects them.
Redis I/O failures on the best-effort side-effect writes (attribution store,
message change log) are modelled by an explicit failure environment Env; the
primary writes are modelled as succeeding, matching the claims, which all
condition on primary-write success.
-/

set_option linter.unusedVariables false

namespace HeliosSync

universe u v

variable {κ : Type u} {ν : Type v} [DecidableEq κ]

/-- Lookup of the value stored at a key in an association list
(the embedding of a Redis GET within one key namespace). -/
def alistFind (k : κ) : List (κ × ν) → Option ν
  | [] => none
  | (k', v) :: rest => if k' = k then some v else alistFind k rest

/-- Overwriting insert (the embedding of a Redis SET): replaces the value at
the key if present, otherwise appends the new entry. -/
def alistSet (k : κ) (v : ν) : List (κ × ν) → List (κ × ν)
  | [] => [(k, v)]
  | (k', v') :: rest => if k' = k then (k, v) :: rest else (k', v') :: alistSet k v rest

/-- Key removal (the embedding of a Redis DEL / ZREM). -/
def alistErase (k : κ) : List (κ × ν) → List (κ × ν)
  | [] => []
  | (k', v') :: rest => if k' = k then alistErase k rest else (k', v') :: alistErase k rest

@[simp] theorem alistFind_nil (k : κ) : alistFind k ([] : List (κ × ν)) = none := rfl

theorem alistFind_cons (k k' : κ) (v : ν) (l : List (κ × ν)) :
    alistFind k ((k', v) :: l) = if k' = k then some v else alistFind k l := rfl

@[simp] theorem alistFind_alistSet_self (k : κ) (v : ν) (l : List (κ × ν)) :
    alistFind k (alistSet k v l) = some v := by
  induction l with
  | nil => simp [alistSet, alistFind]
  | cons p rest ih =>
      obtain ⟨k', v'⟩ := p
      by_cases h : k' = k
      · simp [alistSet, alistFind, h]
      · simp [alistSet, alistFind, h, ih]

theorem alistFind_alistSet_ne (k k0 : κ) (v : ν) (l : List (κ × ν)) (h : k0 ≠ k) :
    alistFind k0 (alistSet k v l) = alistFind k0 l := by
  induction l with
  | nil => simp [alistSet, alistFind, Ne.symm h]
  | cons p rest ih =>
      obtain ⟨k', v'⟩ := p
      by_cases hk : k' = k
      · subst hk
        simp [alistSet, alistFind, Ne.symm h]
      · simp [alistSet, alistFind, hk, ih]

@[simp] theorem alistFind_alistErase_self (k : κ) (l : List (κ × ν)) :
    alistFind k (alistErase k l) = none := by
  induction l with
  | nil => simp [alistErase]
  | cons p rest ih =>
      obtain ⟨k', v'⟩ := p
      by_cases h : k' = k
      · simp [alistErase, h, ih]
      · simp [alistErase, alistFind, h, ih]

@[simp] theorem alistErase_idem (k : κ) (l : List (κ × ν)) :
    alistErase k (alistErase k l) = alistErase k l := by
  induction l with
  | nil => simp [alistErase]
  | cons p rest ih =>
      obtain ⟨k', v'⟩ := p
      by_cases h : k' = k
      · simp [alistErase, h, ih]
      · simp [alistErase, h, ih]

/-! ## Go time embedding -/

/-- Go time.Time, as milliseconds since the Go zero instant
(January 1, year 1, 00:00:00 UTC). -/
abbrev GoTime := Int

/-- Milliseconds between the Go zero instant and the Unix epoch
(Go runtime constant unixToInternal, in milliseconds). -/
def unixToInternalMs : Int := 62135596800000

/-- Go time.UnixMilli(ms): the instant ms milliseconds after the Unix epoch.
Note timeUnixMilli 0 is the Unix epoch, not the Go zero time. -/
def timeUnixMilli (ms : Int) : GoTime := ms + unixToInternalMs

/-- Go t.UnixMilli(): milliseconds from the Unix epoch to the instant t. -/
def unixMilliOf (t : GoTime) : Int := t - unixToInternalMs

@[simp] theorem unixMilliOf_timeUnixMilli (ms : Int) : unixMilliOf (timeUnixMilli ms) = ms := by
  simp [unixMilliOf, timeUnixMilli]

/-! ## Data model (internal/types/types.go) -/

/-- types.Thread.  Version is the only server-readable mutable field; the
client-encrypted fields (title, settings, timestamps, ...) are collapsed into
the opaque payload. -/
structure Thread where
  id : String
  userID : String
  version : Int
  payload : String
  deriving DecidableEq, Repr

/-- types.Message.  All fields except ID are client-encrypted; they are
collapsed into the opaque payload.  The thread grouping lives in the store
key, exactly as in Redis (messages:<threadID>:<messageID>). -/
structure Message where
  id : String
  payload : String
  deriving DecidableEq, Repr

/-- types.ProviderInstances (singleton per owner). -/
structure ProviderInstances where
  userID : String
  version : Int
  updatedAt : GoTime
  payload : String
  deriving DecidableEq, Repr

/-- types.DisabledModels (singleton per owner). -/
structure DisabledModels where
  userID : String
  version : Int
  updatedAt : GoTime
  payload : String
  deriving DecidableEq, Repr

/-- types.AdvancedSettings (singleton per owner). -/
structure AdvancedSettings where
  userID : String
  version : Int
  updatedAt : GoTime
  payload : String
  deriving DecidableEq, Repr

/-- The JSON object written by storeMessageChange. -/
structure MessageChange where
  resource : String
  messageID : String
  threadID : String
  operation : String
  timestampMs : Int
  deriving DecidableEq, Repr

/-- Data attached to a change operation (the interface value in
types.ChangeOperation.Data). -/
inductive OpData where
  | thread (t : Thread)
  | providerInstances (p : ProviderInstances)
  | disabledModels (d : DisabledModels)
  | advancedSettings (a : AdvancedSettings)
  | message (m : Message)
  deriving DecidableEq, Repr

/-- types.ChangeOperation. -/
structure ChangeOperation where
  resource : String
  operation : String
  id : String
  machineID : String
  data : Option OpData
  timestamp : GoTime
  deriving DecidableEq, Repr

/-- types.ChangesSinceResponse. -/
structure ChangesSinceResponse where
  fullThreads : List Thread
  fullMessages : List Message
  providerInstances : Option ProviderInstances
  disabledModels : Option DisabledModels
  advancedSettings : Option AdvancedSettings
  operations : List ChangeOperation
  syncTimestamp : GoTime
  deriving DecidableEq, Repr

/-- types.PaginatedThreadsResponse. -/
structure PaginatedThreadsResponse where
  threads : List Thread
  total : Int
  offset : Int
  limit : Int
  hasMore : Bool
  deriving DecidableEq, Repr

/-- types.PaginatedMessagesResponse. -/
structure PaginatedMessagesResponse where
  messages : List Message
  total : Int
  offset : Int
  limit : Int
  hasMore : Bool
  deriving DecidableEq, Repr

/-- The Redis keyspace used by SyncService, split by key namespace. -/
structure Store where
  /-- keys threads:<userID>:<threadID> -/
  threads : List ((String × String) × Thread)
  /-- keys messages:<threadID>:<messageID> -/
  messages : List ((String × String) × Message)
  /-- keys provider_instances:<userID> -/
  providerInstances : List (String × ProviderInstances)
  /-- keys disabled_models:<userID> -/
  disabledModels : List (String × DisabledModels)
  /-- keys advanced_settings:<userID> -/
  advancedSettings : List (String × AdvancedSettings)
  /-- keys machine_id:<resourceType>:<resourceID>:<unixMilli> -/
  machineIDs : List ((String × String × Int) × String)
  /-- keys message_changes:<messageID>:<unixMilli> -/
  messageChanges : List ((String × Int) × MessageChange)
  /-- sorted sets timestamps:threads:<userID>, member threadID, score version -/
  threadIndex : List ((String × String) × Int)
  deriving DecidableEq, Repr

/-- Failure environment for the best-effort side-effect writes: which of the
two secondary Redis SETs fail on this request.  The Go code logs and swallows
these failures. -/
structure Env where
  attrSetFails : Bool
  changeSetFails : Bool
  deriving DecidableEq, Repr

/-- The environment in which no side-effect write fails. -/
def noFail : Env := ⟨false, false⟩

/-- Errors surfaced by the sync service operations that are modelled. -/
inductive SyncError where
  | versionConflict (serverVersion clientVersion : Int)
  deriving DecidableEq, Repr

/-! ## SyncService operations (services part of internal/database/redis.go) -/

/-- SyncService.getThread: GET threads:<userID>:<threadID>. -/
def getThread (s : Store) (userID threadID : String) : Option Thread :=
  alistFind (userID, threadID) s.threads

/-- SyncService.storeMachineIDForChange: SET
machine_id:<resourceType>:<resourceID>:<timestamp.UnixMilli>, with the
failure of the SET swallowed by every caller (modelled through env). -/
def storeMachineIDForChange (s : Store) (env : Env) (resourceType resourceID machineID : String)
    (timestamp : GoTime) : Store :=
  if env.attrSetFails then s
  else
    let mids := alistSet (resourceType, resourceID, unixMilliOf timestamp) machineID s.machineIDs
    { s with machineIDs := mids }

/-- SyncService.getMachineIDForChange: GET
machine_id:<resourceType>:<resourceID>:<timestamp.UnixMilli>. -/
def getMachineIDForChange (s : Store) (resourceType resourceID : String)
    (timestamp : GoTime) : Option String :=
  alistFind (resourceType, resourceID, unixMilliOf timestamp) s.machineIDs

/-- SyncService.storeMessageChange: SET message_changes:<messageID>:<ms> to the
JSON change record (30-day TTL not modelled; expiry is treated as absence). -/
def storeMessageChange (s : Store) (env : Env) (resourceType messageID operationTag : String)
    (timestamp : GoTime) (threadID : String) : Store :=
  if env.changeSetFails then s
  else
    let entry : MessageChange :=
      { resource := resourceType, messageID := messageID, threadID := threadID,
        operation := operationTag, timestampMs := unixMilliOf timestamp }
    let changes := alistSet (messageID, unixMilliOf timestamp) entry s.messageChanges
    { s with messageChanges := changes }

/-- SyncService.saveThread: SET threads:<userID>:<threadID> and ZADD the
thread into timestamps:threads:<userID> with score Version. -/
def saveThread (s : Store) (t : Thread) : Store :=
  { s with
    threads := alistSet (t.userID, t.id) t s.threads,
    threadIndex := alistSet (t.userID, t.id) t.version s.threadIndex }

/-- SyncService.UpsertThread.  isCreating is decided by whether the existing
fetch failed; a non-strictly-greater version on an existing thread is a
conflict checked before any write; the attribution SET failure is swallowed. -/
def UpsertThread (s : Store) (env : Env) (t : Thread) (machineID : String) (now : GoTime) :
    Except SyncError Bool × Store :=
  match getThread s t.userID t.id with
  | some existing =>
      if t.version ≤ existing.version then
        (.error (.versionConflict existing.version t.version), s)
      else
        let s1 := saveThread s t
        let s2 := storeMachineIDForChange s1 env "thread" t.id machineID now
        (.ok false, s2)
  | none =>
      let s1 := saveThread s t
      let s2 := storeMachineIDForChange s1 env "thread" t.id machineID now
      (.ok true, s2)

/-- SyncService.DeleteThread: DEL threads:<userID>:<threadID> and ZREM from
the timestamp index; no version check, no existence check. -/
def DeleteThread (s : Store) (userID threadID : String) : Store :=
  { s with
    threads := alistErase (userID, threadID) s.threads,
    threadIndex := alistErase (userID, threadID) s.threadIndex }

/-- SyncService.saveMessage: SET messages:<threadID>:<message.ID>. -/
def saveMessage (s : Store) (threadID : String) (m : Message) : Store :=
  { s with messages := alistSet (threadID, m.id) m s.messages }

/-- The message record read back by GET messages:<threadID>:<messageID>. -/
def getMessageRecord (s : Store) (threadID messageID : String) : Option Message :=
  alistFind (threadID, messageID) s.messages

/-- SyncService.CreateMessage.  freshID stands for the uuid.New() drawn when
the client supplied no id.  The change-log SET failure is swallowed. -/
def CreateMessage (s : Store) (env : Env) (threadID : String) (m : Message) (freshID : String)
    (now : GoTime) : Except SyncError Unit × Store :=
  let m' := if m.id = "" then { m with id := freshID } else m
  let s1 := saveMessage s threadID m'
  let s2 := storeMessageChange s1 env "message" m'.id "create" now threadID
  (.ok (), s2)

/-- SyncService.UpdateMessage: no version check is possible (content opaque);
persists unconditionally, then records attribution and a change-log entry,
both with swallowed failures. -/
def UpdateMessage (s : Store) (env : Env) (threadID : String) (m : Message) (machineID : String)
    (now : GoTime) : Except SyncError Unit × Store :=
  let s1 := saveMessage s threadID m
  let s2 := storeMachineIDForChange s1 env "message" m.id machineID now
  let s3 := storeMessageChange s2 env "message" m.id "update" now threadID
  (.ok (), s3)

/-- SyncService.DeleteMessage: appends the delete tombstone to the change log
(failure swallowed) before DEL messages:<threadID>:<messageID>. -/
def DeleteMessage (s : Store) (env : Env) (threadID messageID : String) (now : GoTime) : Store :=
  let s1 := storeMessageChange s env "message" messageID "delete" now threadID
  { s1 with messages := alistErase (threadID, messageID) s1.messages }

/-- The thread enumeration behind SyncService.GetThreads: KEYS
threads:<userID>:*, GET each, and when a cursor is supplied keep only threads
whose Version, reinterpreted through time.UnixMilli, is strictly after it. -/
def threadsOf (l : List ((String × String) × Thread)) (userID : String)
    (since : Option GoTime) : List Thread :=
  l.filterMap fun p =>
    if p.1.1 = userID then
      match since with
      | none => some p.2
      | some c => if timeUnixMilli p.2.version > c then some p.2 else none
    else none

/-- SyncService.GetThreads. -/
def GetThreads (s : Store) (userID : String) (since : Option GoTime) : List Thread :=
  threadsOf s.threads userID since

/-- The message enumeration behind SyncService.GetMessages and
GetMessagesPaginated: KEYS messages:<threadID>:*, GET each.  No server-side
time filtering is possible (timestamps are encrypted). -/
def messagesOf (l : List ((String × String) × Message)) (threadID : String) : List Message :=
  l.filterMap fun p => if p.1.1 = threadID then some p.2 else none

/-- SyncService.GetThreadsPaginated: since-filter, then slice
allThreads offset:(offset+limit), with hasMore := offset + limit < total. -/
def GetThreadsPaginated (s : Store) (userID : String) (offset limit : Int)
    (since : Option GoTime) : PaginatedThreadsResponse :=
  let allThreads := threadsOf s.threads userID since
  let total : Int := allThreads.length
  let paginated : List Thread :=
    if offset < total then
      (allThreads.drop offset.toNat).take ((min (offset + limit) total - offset).toNat)
    else []
  { threads := paginated, total := total, offset := offset, limit := limit,
    hasMore := decide (offset + limit < total) }

/-- SyncService.GetMessagesPaginated.  The since parameter is accepted and
never used, exactly as in the source. -/
def GetMessagesPaginated (s : Store) (threadID : String) (offset limit : Int)
    (since : Option GoTime) : PaginatedMessagesResponse :=
  let allMessages := messagesOf s.messages threadID
  let total : Int := allMessages.length
  let paginated : List Message :=
    if offset < total then
      (allMessages.drop offset.toNat).take ((min (offset + limit) total - offset).toNat)
    else []
  { messages := paginated, total := total, offset := offset, limit := limit,
    hasMore := decide (offset + limit < total) }

/-- SyncService.GetProviderInstances: GET provider_instances:<userID>. -/
def GetProviderInstances (s : Store) (userID : String) : Option ProviderInstances :=
  alistFind userID s.providerInstances

/-- SyncService.GetDisabledModels: GET disabled_models:<userID>. -/
def GetDisabledModels (s : Store) (userID : String) : Option DisabledModels :=
  alistFind userID s.disabledModels

/-- SyncService.GetAdvancedSettings: GET advanced_settings:<userID>. -/
def GetAdvancedSettings (s : Store) (userID : String) : Option AdvancedSettings :=
  alistFind userID s.advancedSettings

/-- SyncService.UpdateProviderInstances: server-assigns UpdatedAt := now,
overwrites unconditionally (no version comparison appears in the source),
then records attribution with swallowed failure. -/
def UpdateProviderInstances (s : Store) (env : Env) (p : ProviderInstances)
    (machineID : String) (now : GoTime) : Except SyncError Unit × Store :=
  let p' := { p with updatedAt := now }
  let s1 := { s with providerInstances := alistSet p.userID p' s.providerInstances }
  let s2 := storeMachineIDForChange s1 env "provider_instances" p.userID machineID now
  (.ok (), s2)

/-- SyncService.UpdateDisabledModels: same unconditional shape. -/
def UpdateDisabledModels (s : Store) (env : Env) (d : DisabledModels)
    (machineID : String) (now : GoTime) : Except SyncError Unit × Store :=
  let d' := { d with updatedAt := now }
  let s1 := { s with disabledModels := alistSet d.userID d' s.disabledModels }
  let s2 := storeMachineIDForChange s1 env "disabled_models" d.userID machineID now
  (.ok (), s2)

/-- SyncService.UpdateAdvancedSettings: same unconditional shape. -/
def UpdateAdvancedSettings (s : Store) (env : Env) (a : AdvancedSettings)
    (machineID : String) (now : GoTime) : Except SyncError Unit × Store :=
  let a' := { a with updatedAt := now }
  let s1 := { s with advancedSettings := alistSet a.userID a' s.advancedSettings }
  let s2 := storeMachineIDForChange s1 env "advanced_settings" a.userID machineID now
  (.ok (), s2)

/-! ## Delta resolver (SyncService.GetChangesSince and helpers) -/

/-- The update operation GetChangesSince projects from one thread: timestamp
is time.UnixMilli(Version) and attribution is looked up at that instant, with
a failed lookup degraded to the empty machine id. -/
def mkThreadOp (mids : List ((String × String × Int) × String)) (t : Thread) : ChangeOperation :=
  let changeTimestamp := timeUnixMilli t.version
  { resource := "thread", operation := "update", id := t.id,
    machineID := (alistFind ("thread", t.id, unixMilliOf changeTimestamp) mids).getD "",
    data := some (.thread t), timestamp := changeTimestamp }

/-- The provider-instances block of the incremental branch of
GetChangesSince: one update operation iff the record exists and
UpdatedAt.After(cursor). -/
def providerInstancesOps (s : Store) (userID : String) (cursor : GoTime) :
    List ChangeOperation :=
  match GetProviderInstances s userID with
  | some pi =>
      if pi.updatedAt > cursor then
        [{ resource := "provider_instances", operation := "update", id := pi.userID,
           machineID := (getMachineIDForChange s "provider_instances" pi.userID pi.updatedAt).getD "",
           data := some (.providerInstances pi), timestamp := pi.updatedAt }]
      else []
  | none => []

/-- The disabled-models block of the incremental branch. -/
def disabledModelsOps (s : Store) (userID : String) (cursor : GoTime) :
    List ChangeOperation :=
  match GetDisabledModels s userID with
  | some dm =>
      if dm.updatedAt > cursor then
        [{ resource := "disabled_models", operation := "update", id := dm.userID,
           machineID := (getMachineIDForChange s "disabled_models" dm.userID dm.updatedAt).getD "",
           data := some (.disabledModels dm), timestamp := dm.updatedAt }]
      else []
  | none => []

/-- The advanced-settings block of the incremental branch. -/
def advancedSettingsOps (s : Store) (userID : String) (cursor : GoTime) :
    List ChangeOperation :=
  match GetAdvancedSettings s userID with
  | some a =>
      if a.updatedAt > cursor then
        [{ resource := "advanced_settings", operation := "update", id := a.userID,
           machineID := (getMachineIDForChange s "advanced_settings" a.userID a.updatedAt).getD "",
           data := some (.advancedSettings a), timestamp := a.updatedAt }]
      else []
  | none => []

/-- SyncService.getMessageChangesSince: KEYS message_changes:* (note: no user
or thread restriction), keep entries whose timestamp is strictly after the
cursor, attach the current record for non-delete operations when it still
exists, and attribute through the machine-id index with the empty string for
a missed lookup. -/
def getMessageChangesSince (s : Store) (cursor : GoTime) : List ChangeOperation :=
  s.messageChanges.filterMap fun p =>
    let c := p.2
    let changeTimestamp := timeUnixMilli c.timestampMs
    if changeTimestamp > cursor then
      some { resource := "message", operation := c.operation, id := c.messageID,
             machineID :=
               (getMachineIDForChange s "message" c.messageID changeTimestamp).getD "",
             data :=
               if c.operation ≠ "delete" then
                 match getMessageRecord s c.threadID c.messageID with
                 | some m => some (.message m)
                 | none => none
               else none,
             timestamp := changeTimestamp }
    else none

/-- The operation list of the incremental branch of GetChangesSince, in the
source's concatenation order: threads, provider instances, disabled models,
advanced settings, message changes. -/
def incrementalOps (s : Store) (userID : String) (cursor : GoTime) : List ChangeOperation :=
  ((GetThreads s userID (some cursor)).map (mkThreadOp s.machineIDs))
    ++ providerInstancesOps s userID cursor
    ++ disabledModelsOps s userID cursor
    ++ advancedSettingsOps s userID cursor
    ++ getMessageChangesSince s cursor

/-- SyncService.GetChangesSince.  Full sync iff timestamp.IsZero(); the full
branch snapshots the user's threads, the three settings singletons, and, via
KEYS messages:*, every message in the store regardless of owner. -/
def GetChangesSince (s : Store) (userID : String) (timestamp : GoTime) (now : GoTime) :
    ChangesSinceResponse :=
  if timestamp = 0 then
    { fullThreads := GetThreads s userID none,
      fullMessages := s.messages.map (·.2),
      providerInstances := GetProviderInstances s userID,
      disabledModels := GetDisabledModels s userID,
      advancedSettings := GetAdvancedSettings s userID,
      operations := [],
      syncTimestamp := now }
  else
    { fullThreads := [], fullMessages := [],
      providerInstances := none, disabledModels := none, advancedSettings := none,
      operations := incrementalOps s userID timestamp,
      syncTimestamp := now }

/-! ## Handler-level parameter normalization (internal/handlers/sync.go) -/

/-- SyncHandler.GetThreads offset parsing (shared shape with GetMessages):
default 0, a parsed non-negative value wins, anything else keeps the default.
none stands for an absent or unparsable query value. -/
def parseOffset (q : Option Int) : Int :=
  match q with
  | some o => if o ≥ 0 then o else 0
  | none => 0

/-- SyncHandler.GetThreads limit normalization: default 10, positive parsed
values clamped to the hard-coded maximum 28. -/
def threadLimit (q : Option Int) : Int :=
  match q with
  | some l => if l > 0 then (if l > 28 then 28 else l) else 10
  | none => 10

/-- SyncHandler.GetMessages limit normalization: default 20, positive parsed
values clamped to the hard-coded maximum 50. -/
def messageLimit (q : Option Int) : Int :=
  match q with
  | some l => if l > 0 then (if l > 50 then 50 else l) else 20
  | none => 20

/-- SyncHandler.GetChangesSince cursor decoding: the integer path parameter
becomes time.UnixMilli(timestampInt). -/
def handlerCursor (timestampInt : Int) : GoTime := timeUnixMilli timestampInt

/-! ## Basic facts about the operations -/

@[simp] theorem threads_storeMachineIDForChange (s : Store) (env : Env)
    (rt rid mid : String) (ts : GoTime) :
    (storeMachineIDForChange s env rt rid mid ts).threads = s.threads := by
  unfold storeMachineIDForChange
  split <;> rfl

@[simp] theorem messages_storeMachineIDForChange (s : Store) (env : Env)
    (rt rid mid : String) (ts : GoTime) :
    (storeMachineIDForChange s env rt rid mid ts).messages = s.messages := by
  unfold storeMachineIDForChange
  split <;> rfl

@[simp] theorem messages_storeMessageChange (s : Store) (env : Env)
    (rt mid opTag : String) (ts : GoTime) (tid : String) :
    (storeMessageChange s env rt mid opTag ts tid).messages = s.messages := by
  unfold storeMessageChange
  split <;> rfl

@[simp] theorem threads_saveThread (s : Store) (t : Thread) :
    (saveThread s t).threads = alistSet (t.userID, t.id) t s.threads := rfl

@[simp] theorem getThread_saveThread (s : Store) (t : Thread) :
    getThread (saveThread s t) t.userID t.id = some t := by
  simp [getThread, saveThread]

theorem machineIDs_storeMachineIDForChange_ok (s : Store) (env : Env)
    (rt rid mid : String) (ts : GoTime) (h : env.attrSetFails = false) :
    (storeMachineIDForChange s env rt rid mid ts).machineIDs
      = alistSet (rt, rid, unixMilliOf ts) mid s.machineIDs := by
  unfold storeMachineIDForChange
  simp [h]

/-- A store with every namespace empty. -/
def emptyStore : Store := ⟨[], [], [], [], [], [], [], []⟩

/-! ## Claims -/

/-- C2: for an existing thread, an upsert with incoming version less than or
equal to the stored version fails with the version-conflict error and returns
the store unchanged; and across any successful upsert the stored version does
not decrease. -/
theorem c2_version_conflict_rejected (s : Store) (env : Env) (t : Thread)
    (machineID : String) (now : GoTime) (ex : Thread)
    (hex : getThread s t.userID t.id = some ex) :
    (t.version ≤ ex.version →
      UpsertThread s env t machineID now
        = (.error (.versionConflict ex.version t.version), s))
    ∧ (∀ (b : Bool) (s' : Store), UpsertThread s env t machineID now = (.ok b, s') →
        ∃ stored : Thread, getThread s' t.userID t.id = some stored
          ∧ ex.version ≤ stored.version) := by
  constructor
  · intro hle
    simp [UpsertThread, hex, hle]
  · intro b s' h
    by_cases hle : t.version ≤ ex.version
    · simp [UpsertThread, hex, hle] at h
    · simp only [UpsertThread, hex, if_neg hle] at h
      have h2 : storeMachineIDForChange (saveThread s t) env "thread" t.id machineID now = s' :=
        congrArg Prod.snd h
      refine ⟨t, ?_, le_of_lt (lt_of_not_le hle)⟩
      rw [← h2]
      simp [getThread]

/-- C2 witness: a stored thread at version 1000 rejects an upsert at version
1000 and keeps the store unchanged. -/
theorem c2_version_conflict_rejected_witness :
    getThread
        { emptyStore with
            threads := [(("U", "T"), { id := "T", userID := "U", version := 1000, payload := "a" })] }
        "U" "T"
      = some { id := "T", userID := "U", version := 1000, payload := "a" }
    ∧ ((1000 : Int) ≤ 1000 →
        UpsertThread
            { emptyStore with
                threads := [(("U", "T"), { id := "T", userID := "U", version := 1000, payload := "a" })] }
            noFail { id := "T", userID := "U", version := 1000, payload := "b" } "M"
            (timeUnixMilli 2000)
          = (.error (.versionConflict 1000 1000),
             { emptyStore with
                 threads := [(("U", "T"), { id := "T", userID := "U", version := 1000, payload := "a" })] }))
    ∧ (∀ (b : Bool) (s' : Store),
        UpsertThread
            { emptyStore with
                threads := [(("U", "T"), { id := "T", userID := "U", version := 1000, payload := "a" })] }
            noFail { id := "T", userID := "U", version := 1000, payload := "b" } "M"
            (timeUnixMilli 2000)
          = (.ok b, s') →
        ∃ stored : Thread, getThread s' "U" "T" = some stored ∧ (1000 : Int) ≤ stored.version) :=
  ⟨by decide,
   (c2_version_conflict_rejected _ noFail
      { id := "T", userID := "U", version := 1000, payload := "b" } "M" (timeUnixMilli 2000)
      { id := "T", userID := "U", version := 1000, payload := "a" } (by decide)).1,
   (c2_version_conflict_rejected _ noFail
      { id := "T", userID := "U", version := 1000, payload := "b" } "M" (timeUnixMilli 2000)
      { id := "T", userID := "U", version := 1000, payload := "a" } (by decide)).2⟩

/-- C6: when the thread is absent or the incoming version is strictly greater
than the stored one, the upsert succeeds, the incoming record becomes the
stored record (so its version becomes the stored version), and the returned
flag reports creation exactly when no record existed before. -/
theorem c6_upsert_success (s : Store) (env : Env) (t : Thread) (machineID : String)
    (now : GoTime)
    (h : getThread s t.userID t.id = none
        ∨ ∃ ex : Thread, getThread s t.userID t.id = some ex ∧ ex.version < t.version) :
    ∃ s' : Store,
      UpsertThread s env t machineID now = (.ok (getThread s t.userID t.id).isNone, s')
      ∧ getThread s' t.userID t.id = some t := by
  refine ⟨storeMachineIDForChange (saveThread s t) env "thread" t.id machineID now, ?_, ?_⟩
  · rcases h with h | ⟨ex, hex, hlt⟩
    · simp [UpsertThread, h]
    · simp [UpsertThread, hex, not_le.mpr hlt]
  · simp [getThread]

/-- C6 witness: creating a fresh thread reports creation and stores it. -/
theorem c6_upsert_success_witness :
    (getThread emptyStore "U" "T" = none
      ∨ ∃ ex : Thread, getThread emptyStore "U" "T" = some ex ∧ ex.version < 1000)
    ∧ ∃ s' : Store,
        UpsertThread emptyStore noFail { id := "T", userID := "U", version := 1000, payload := "a" }
            "M" (timeUnixMilli 1000)
          = (.ok (getThread emptyStore "U" "T").isNone, s')
        ∧ getThread s' "U" "T" = some { id := "T", userID := "U", version := 1000, payload := "a" } :=
  ⟨Or.inl (by decide),
   c6_upsert_success emptyStore noFail
     { id := "T", userID := "U", version := 1000, payload := "a" } "M" (timeUnixMilli 1000)
     (Or.inl (by decide))⟩

/-- C5 counterexample: a stored provider-instances record at version 5
accepts an update at version 3 with no conflict error, and the stored record
(version included) changes — the claimed version-conflict contract does not
exist for the singleton settings resources. -/
theorem c5_counterexample :
    (3 : Int) ≤ 5
    ∧ (UpdateProviderInstances
        { emptyStore with
            providerInstances :=
              [("U", { userID := "U", version := 5, updatedAt := timeUnixMilli 100, payload := "old" })] }
        noFail { userID := "U", version := 3, updatedAt := timeUnixMilli 100, payload := "new" }
        "M" (timeUnixMilli 200)).1 = .ok ()
    ∧ GetProviderInstances
        (UpdateProviderInstances
          { emptyStore with
              providerInstances :=
                [("U", { userID := "U", version := 5, updatedAt := timeUnixMilli 100, payload := "old" })] }
          noFail { userID := "U", version := 3, updatedAt := timeUnixMilli 100, payload := "new" }
          "M" (timeUnixMilli 200)).2 "U"
        = some { userID := "U", version := 3, updatedAt := timeUnixMilli 200, payload := "new" } := by
  refine ⟨by decide, rfl, by decide⟩

/-- C5 amended: singleton settings updates are unconditional last-write-wins
with no version comparison — whatever is stored, the update succeeds and the
incoming record is persisted with the server-assigned updated_at (the write
instant), never a client-supplied one. -/
theorem c5_singleton_updates_unconditional (s : Store) (env : Env)
    (p : ProviderInstances) (d : DisabledModels) (a : AdvancedSettings)
    (machineID : String) (now : GoTime) :
    (UpdateProviderInstances s env p machineID now).1 = .ok ()
    ∧ GetProviderInstances (UpdateProviderInstances s env p machineID now).2 p.userID
        = some { p with updatedAt := now }
    ∧ (UpdateDisabledModels s env d machineID now).1 = .ok ()
    ∧ GetDisabledModels (UpdateDisabledModels s env d machineID now).2 d.userID
        = some { d with updatedAt := now }
    ∧ (UpdateAdvancedSettings s env a machineID now).1 = .ok ()
    ∧ GetAdvancedSettings (UpdateAdvancedSettings s env a machineID now).2 a.userID
        = some { a with updatedAt := now } := by
  refine ⟨rfl, ?_, rfl, ?_, rfl, ?_⟩ <;>
    simp [UpdateProviderInstances, UpdateDisabledModels, UpdateAdvancedSettings,
      GetProviderInstances, GetDisabledModels, GetAdvancedSettings,
      storeMachineIDForChange] <;>
    split <;> simp

/-- C7: a failure of the best-effort side-effect writes (origin attribution
SET, message change-log SET) after a successful primary persist never changes
the caller-visible outcome or the primary resource state: the upsert verdict
and the thread table match the no-failure run, and the message operations
return success with the message table matching the no-failure run. -/
theorem c7_side_effect_failures_swallowed (s : Store) (env : Env) (t : Thread)
    (machineID : String) (now : GoTime) (threadID : String) (m : Message)
    (machineID2 freshID : String) :
    (UpsertThread s env t machineID now).1 = (UpsertThread s noFail t machineID now).1
    ∧ ((UpsertThread s env t machineID now).2).threads
        = ((UpsertThread s noFail t machineID now).2).threads
    ∧ (CreateMessage s env threadID m freshID now).1 = .ok ()
    ∧ ((CreateMessage s env threadID m freshID now).2).messages
        = ((CreateMessage s noFail threadID m freshID now).2).messages
    ∧ (UpdateMessage s env threadID m machineID2 now).1 = .ok ()
    ∧ ((UpdateMessage s env threadID m machineID2 now).2).messages
        = ((UpdateMessage s noFail threadID m machineID2 now).2).messages := by
    refine ⟨?_, ?_, rfl, ?_, rfl, ?_⟩
    · unfold UpsertThread
      cases hg : getThread s t.userID t.id <;> simp <;> split <;> simp
    · unfold UpsertThread
      cases hg : getThread s t.userID t.id <;> simp <;> split <;> simp
    · simp [CreateMessage]
    · simp [UpdateMessage]

/-- C8: thread and message deletion are unconditional and idempotent —
deleting an absent or already-deleted resource succeeds (the operations are
total and never inspect version or existence), and after a delete the
resource reads back as absent, also after deleting it again. -/
theorem c8_delete_unconditional_idempotent (s : Store) (userID threadID : String)
    (env : Env) (mThreadID messageID : String) (now1 now2 : GoTime) :
    getThread (DeleteThread s userID threadID) userID threadID = none
    ∧ DeleteThread (DeleteThread s userID threadID) userID threadID
        = DeleteThread s userID threadID
    ∧ getMessageRecord (DeleteMessage s env mThreadID messageID now1) mThreadID messageID = none
    ∧ getMessageRecord
        (DeleteMessage (DeleteMessage s env mThreadID messageID now1) env mThreadID messageID now2)
        mThreadID messageID = none := by
  refine ⟨?_, ?_, ?_, ?_⟩
  · simp [getThread, DeleteThread]
  · simp [DeleteThread]
  · simp [getMessageRecord, DeleteMessage]
  · simp [getMessageRecord, DeleteMessage]

/-- C9: the thread listing clamps a requested limit above 28 to 28 and the
message listing clamps above 50 to 50; for both paginated listings has_more
is true exactly when offset + limit < total, and total is the item count
after the since-filter (which for messages filters nothing, no server-visible
timestamp existing). -/
theorem c9_pagination_clamp_hasMore (lt lm : Int) (hlt : 28 < lt) (hlm : 50 < lm)
    (s : Store) (userID threadID : String) (offset limit : Int) (since : Option GoTime) :
    threadLimit (some lt) = 28
    ∧ messageLimit (some lm) = 50
    ∧ ((GetThreadsPaginated s userID offset limit since).hasMore = true
        ↔ offset + limit < (GetThreadsPaginated s userID offset limit since).total)
    ∧ (GetThreadsPaginated s userID offset limit since).total
        = (threadsOf s.threads userID since).length
    ∧ ((GetMessagesPaginated s threadID offset limit since).hasMore = true
        ↔ offset + limit < (GetMessagesPaginated s threadID offset limit since).total)
    ∧ (GetMessagesPaginated s threadID offset limit since).total
        = (messagesOf s.messages threadID).length := by
  have h0t : (0 : Int) < lt := lt_trans (by norm_num) hlt
  have h0m : (0 : Int) < lm := lt_trans (by norm_num) hlm
  refine ⟨?_, ?_, ?_, rfl, ?_, rfl⟩
  · simp [threadLimit, h0t, hlt]
  · simp [messageLimit, h0m, hlm]
  · simp [GetThreadsPaginated]
  · simp [GetMessagesPaginated]

/-- C9 witness: with a one-thread store, limit request 29 clamps to 28,
limit request 51 clamps to 50, and has_more matches offset + limit < total. -/
theorem c9_pagination_clamp_hasMore_witness :
    ((28 : Int) < 29 ∧ (50 : Int) < 51)
    ∧ (threadLimit (some 29) = 28
      ∧ messageLimit (some 51) = 50
      ∧ ((GetThreadsPaginated
            { emptyStore with
                threads := [(("U", "T"), { id := "T", userID := "U", version := 1000, payload := "a" })] }
            "U" 0 2 none).hasMore = true
          ↔ (0 : Int) + 2 < (GetThreadsPaginated
            { emptyStore with
                threads := [(("U", "T"), { id := "T", userID := "U", version := 1000, payload := "a" })] }
            "U" 0 2 none).total)
      ∧ (GetThreadsPaginated
            { emptyStore with
                threads := [(("U", "T"), { id := "T", userID := "U", version := 1000, payload := "a" })] }
            "U" 0 2 none).total
          = (threadsOf
              [(("U", "T"), { id := "T", userID := "U", version := 1000, payload := "a" })] "U" none).length
      ∧ ((GetMessagesPaginated
            { emptyStore with
                threads := [(("U", "T"), { id := "T", userID := "U", version := 1000, payload := "a" })] }
            "TM" 0 2 none).hasMore = true
          ↔ (0 : Int) + 2 < (GetMessagesPaginated
            { emptyStore with
                threads := [(("U", "T"), { id := "T", userID := "U", version := 1000, payload := "a" })] }
            "TM" 0 2 none).total)
      ∧ (GetMessagesPaginated
            { emptyStore with
                threads := [(("U", "T"), { id := "T", userID := "U", version := 1000, payload := "a" })] }
            "TM" 0 2 none).total
          = (messagesOf ([] : List ((String × String) × Message)) "TM").length) :=
  ⟨⟨by decide, by decide⟩,
   c9_pagination_clamp_hasMore 29 51 (by decide) (by decide) _ "U" "TM" 0 2 none⟩

theorem mem_threadsOf_since (l : List ((String × String) × Thread)) (userID : String)
    (c : GoTime) (t : Thread) (h : t ∈ threadsOf l userID (some c)) :
    c < timeUnixMilli t.version := by
  rcases List.mem_filterMap.mp h with ⟨p, _, hp⟩
  by_cases hu : p.1.1 = userID
  · simp only [hu, if_true] at hp
    by_cases hv : timeUnixMilli p.2.version > c
    · simp only [hv, if_pos] at hp
      cases hp
      exact hv
    · simp [hv] at hp
  · simp [hu] at hp

theorem mem_providerInstancesOps (s : Store) (userID : String) (c : GoTime)
    (op : ChangeOperation) (h : op ∈ providerInstancesOps s userID c) :
    c < op.timestamp ∧ op.resource = "provider_instances" := by
  unfold providerInstancesOps at h
  rcases hpi : GetProviderInstances s userID with _ | pi <;> rw [hpi] at h <;> dsimp only at h
  · simp at h
  · by_cases hc : pi.updatedAt > c
    · rw [if_pos hc] at h
      rcases List.mem_singleton.mp h with rfl
      exact ⟨hc, rfl⟩
    · rw [if_neg hc] at h
      simp at h

theorem mem_disabledModelsOps (s : Store) (userID : String) (c : GoTime)
    (op : ChangeOperation) (h : op ∈ disabledModelsOps s userID c) :
    c < op.timestamp ∧ op.resource = "disabled_models" := by
  unfold disabledModelsOps at h
  rcases hdm : GetDisabledModels s userID with _ | dm <;> rw [hdm] at h <;> dsimp only at h
  · simp at h
  · by_cases hc : dm.updatedAt > c
    · rw [if_pos hc] at h
      rcases List.mem_singleton.mp h with rfl
      exact ⟨hc, rfl⟩
    · rw [if_neg hc] at h
      simp at h

theorem mem_advancedSettingsOps (s : Store) (userID : String) (c : GoTime)
    (op : ChangeOperation) (h : op ∈ advancedSettingsOps s userID c) :
    c < op.timestamp ∧ op.resource = "advanced_settings" := by
  unfold advancedSettingsOps at h
  rcases has : GetAdvancedSettings s userID with _ | a <;> rw [has] at h <;> dsimp only at h
  · simp at h
  · by_cases hc : a.updatedAt > c
    · rw [if_pos hc] at h
      rcases List.mem_singleton.mp h with rfl
      exact ⟨hc, rfl⟩
    · rw [if_neg hc] at h
      simp at h

theorem mem_getMessageChangesSince (s : Store) (c : GoTime) (op : ChangeOperation)
    (h : op ∈ getMessageChangesSince s c) :
    c < op.timestamp ∧ op.resource = "message" := by
  rcases List.mem_filterMap.mp h with ⟨p, _, hp⟩
  by_cases hc : timeUnixMilli p.2.timestampMs > c
  · simp only [getMessageChangesSince, hc, if_pos] at hp
    cases hp
    exact ⟨hc, rfl⟩
  · simp [hc] at hp

/-- C4: in an incremental sync (non-zero cursor), every operation in the
returned list — projected from threads, singleton settings or the message
change log — carries a timestamp strictly greater than the cursor. -/
theorem c4_incremental_timestamps_after_cursor (s : Store) (userID : String)
    (cursor now : GoTime) (op : ChangeOperation) (hc : cursor ≠ 0)
    (hop : op ∈ (GetChangesSince s userID cursor now).operations) :
    cursor < op.timestamp := by
  simp only [GetChangesSince, if_neg hc] at hop
  unfold incrementalOps at hop
  rcases List.mem_append.mp hop with hop | hmsg
  · rcases List.mem_append.mp hop with hop | has
    · rcases List.mem_append.mp hop with hop | hdm
      · rcases List.mem_append.mp hop with hth | hpi
        · rcases List.mem_map.mp hth with ⟨t, ht, rfl⟩
          exact mem_threadsOf_since s.threads userID cursor t ht
        · exact (mem_providerInstancesOps s userID cursor op hpi).1
      · exact (mem_disabledModelsOps s userID cursor op hdm).1
    · exact (mem_advancedSettingsOps s userID cursor op has).1
  · exact (mem_getMessageChangesSince s cursor op hmsg).1

/-- C4 witness: a store holding one matching thread, one fresh
provider-instances record and one message change entry yields operations all
strictly after the cursor. -/
theorem c4_incremental_timestamps_after_cursor_witness :
    timeUnixMilli 500 ≠ 0
    ∧ (let s : Store :=
        { emptyStore with
            threads := [(("U", "T"), { id := "T", userID := "U", version := 1000, payload := "a" })],
            providerInstances :=
              [("U", { userID := "U", version := 7, updatedAt := timeUnixMilli 900, payload := "p" })],
            messageChanges :=
              [(("m1", 800),
                { resource := "message", messageID := "m1", threadID := "TH",
                  operation := "delete", timestampMs := 800 })] }
      ∀ op ∈ (GetChangesSince s "U" (timeUnixMilli 500) (timeUnixMilli 2000)).operations,
        timeUnixMilli 500 < op.timestamp) :=
  ⟨by decide,
   fun op hop =>
     c4_incremental_timestamps_after_cursor _ "U" (timeUnixMilli 500) (timeUnixMilli 2000) op
       (by decide) hop⟩

/-! ## Echo round-trip (C1) and full-sync analysis (C3) -/

/-- Well-formedness of the thread namespace as the API maintains it: Redis
keys are unique, and the id stored inside the JSON value agrees with the id
component of the key (both are set from the same struct by saveThread). -/
def ThreadsWF (l : List ((String × String) × Thread)) : Prop :=
  (l.map Prod.fst).Nodup ∧ ∀ p ∈ l, p.2.id = p.1.2

@[simp] theorem mkThreadOp_resource (mids : List ((String × String × Int) × String))
    (t : Thread) : (mkThreadOp mids t).resource = "thread" := rfl

@[simp] theorem mkThreadOp_id (mids : List ((String × String × Int) × String))
    (t : Thread) : (mkThreadOp mids t).id = t.id := rfl

theorem threadsOf_cons (k1 k2 : String) (v : Thread) (l : List ((String × String) × Thread))
    (u : String) (c : GoTime) :
    threadsOf (((k1, k2), v) :: l) u (some c)
      = (if k1 = u ∧ timeUnixMilli v.version > c then [v] else []) ++ threadsOf l u (some c) := by
  by_cases h1 : k1 = u
  · by_cases h2 : timeUnixMilli v.version > c <;>
      simp [threadsOf, List.filterMap_cons, h1, h2]
  · simp [threadsOf, List.filterMap_cons, h1]

theorem threadsOf_filter_not_mem (l : List ((String × String) × Thread))
    (u tid : String) (hco : ∀ p ∈ l, p.2.id = p.1.2)
    (h : (u, tid) ∉ l.map Prod.fst) (c : GoTime) :
    (threadsOf l u (some c)).filter (fun th => th.id == tid) = [] := by
  induction l with
  | nil => rfl
  | cons p rest ih =>
      obtain ⟨⟨k1, k2⟩, v⟩ := p
      have hid : v.id = k2 := hco ((k1, k2), v) (List.mem_cons_self _ _)
      have hrest : ∀ q ∈ rest, q.2.id = q.1.2 := fun q hq => hco q (by simp [hq])
      have hnr : (u, tid) ∉ rest.map Prod.fst := fun hh => h (by simp [hh])
      have hkey : (k1, k2) ≠ (u, tid) := fun hh => h (by simp [hh])
      rw [threadsOf_cons, List.filter_append, ih hrest hnr, List.append_nil]
      by_cases hc1 : k1 = u ∧ timeUnixMilli v.version > c
      · have hk2 : (v.id == tid) = false := by
          refine beq_eq_false_iff_ne.mpr fun hv => hkey ?_
          rw [hc1.1, ← hid, hv]
        simp [hc1, hk2]
      · simp [hc1]

theorem threadsOf_filter_set (l : List ((String × String) × Thread))
    (hWF : ThreadsWF l) (t : Thread) (c : GoTime) :
    (threadsOf (alistSet (t.userID, t.id) t l) t.userID (some c)).filter
        (fun th => th.id == t.id)
      = if timeUnixMilli t.version > c then [t] else [] := by
  obtain ⟨hnd, hco⟩ := hWF
  induction l with
  | nil =>
      by_cases ht : timeUnixMilli t.version > c <;>
        simp [alistSet, threadsOf, List.filterMap_cons, ht, List.filter_cons]
  | cons p rest ih =>
      obtain ⟨⟨k1, k2⟩, v⟩ := p
      have hid : v.id = k2 := hco ((k1, k2), v) (List.mem_cons_self _ _)
      have hrest : ∀ q ∈ rest, q.2.id = q.1.2 := fun q hq => hco q (by simp [hq])
      have hnd' := List.nodup_cons.mp hnd
      by_cases hk : (k1, k2) = (t.userID, t.id)
      · have hset : alistSet (t.userID, t.id) t (((k1, k2), v) :: rest)
            = ((t.userID, t.id), t) :: rest := by
          simp [alistSet, hk]
        have hnot : (t.userID, t.id) ∉ rest.map Prod.fst := hk ▸ hnd'.1
        have htail := threadsOf_filter_not_mem rest t.userID t.id hrest hnot c
        rw [hset, threadsOf_cons, List.filter_append, htail, List.append_nil]
        by_cases ht : timeUnixMilli t.version > c <;> simp [ht]
      · have hset : alistSet (t.userID, t.id) t (((k1, k2), v) :: rest)
            = ((k1, k2), v) :: alistSet (t.userID, t.id) t rest := by
          simp [alistSet, hk]
        rw [hset, threadsOf_cons, List.filter_append, ih hnd'.2 hrest]
        by_cases hc1 : k1 = t.userID ∧ timeUnixMilli v.version > c
        · have hk2 : (v.id == t.id) = false := by
            refine beq_eq_false_iff_ne.mpr fun hv => hk ?_
            rw [hc1.1, ← hid, hv]
          simp [hc1, hk2]
        · simp [hc1]

theorem filter_threadPred_map_mkThreadOp (mids : List ((String × String × Int) × String))
    (tid : String) (ts : List Thread) :
    (ts.map (mkThreadOp mids)).filter (fun op => op.resource == "thread" && op.id == tid)
      = (ts.filter (fun th => th.id == tid)).map (mkThreadOp mids) := by
  induction ts with
  | nil => rfl
  | cons th rest ih =>
      by_cases h : (th.id == tid) = true <;>
        simp [List.filter_cons, h, ih]

theorem filter_threadPred_providerInstancesOps (s : Store) (u : String) (c : GoTime)
    (tid : String) :
    (providerInstancesOps s u c).filter
      (fun op => op.resource == "thread" && op.id == tid) = [] := by
  rw [List.filter_eq_nil_iff]
  intro op hop
  have := (mem_providerInstancesOps s u c op hop).2
  simp [this]

theorem filter_threadPred_disabledModelsOps (s : Store) (u : String) (c : GoTime)
    (tid : String) :
    (disabledModelsOps s u c).filter
      (fun op => op.resource == "thread" && op.id == tid) = [] := by
  rw [List.filter_eq_nil_iff]
  intro op hop
  have := (mem_disabledModelsOps s u c op hop).2
  simp [this]

theorem filter_threadPred_advancedSettingsOps (s : Store) (u : String) (c : GoTime)
    (tid : String) :
    (advancedSettingsOps s u c).filter
      (fun op => op.resource == "thread" && op.id == tid) = [] := by
  rw [List.filter_eq_nil_iff]
  intro op hop
  have := (mem_advancedSettingsOps s u c op hop).2
  simp [this]

theorem filter_threadPred_getMessageChangesSince (s : Store) (c : GoTime) (tid : String) :
    (getMessageChangesSince s c).filter
      (fun op => op.resource == "thread" && op.id == tid) = [] := by
  rw [List.filter_eq_nil_iff]
  intro op hop
  have := (mem_getMessageChangesSince s c op hop).2
  simp [this]

/-- C1 counterexample to the claim as stated: an upsert of thread T (client
version 1000) succeeding at server instant 2000 ms, followed by an
incremental sync from a cursor strictly before the write, returns its one
operation for T with machine_id equal to the empty string, not the supplied
device id M — attribution is stored at the server write instant but looked
up at the version instant, so any clock/version disagreement loses it. -/
theorem c1_counterexample :
    (UpsertThread emptyStore noFail
        { id := "T", userID := "U", version := 1000, payload := "a" } "M"
        (timeUnixMilli 2000)).1 = .ok true
    ∧ ((GetChangesSince
          (UpsertThread emptyStore noFail
            { id := "T", userID := "U", version := 1000, payload := "a" } "M"
            (timeUnixMilli 2000)).2
          "U" (timeUnixMilli 500) (timeUnixMilli 3000)).operations.filter
        (fun op => op.resource == "thread" && op.id == "T")).map (fun op => op.machineID)
      = [""]
    ∧ ("" : String) ≠ "M" := by
  refine ⟨rfl, by decide, by decide⟩

/-- C1 amended: the echo round-trip holds exactly when attribution keys
align, i.e. the server clock at the write, in milliseconds, equals the
thread's client-chosen version and the attribution write succeeds; then an
incremental sync from a non-zero cursor strictly before the thread's version
instant returns exactly one operation for that thread, annotated with the
supplied device id (otherwise the operation carries an empty machine id, as
the counterexample shows). -/
theorem c1_echo_roundtrip_aligned (s : Store) (env : Env) (t : Thread) (machineID : String)
    (now cursor now2 : GoTime) (b : Bool) (s' : Store)
    (hWF : ThreadsWF s.threads)
    (halign : unixMilliOf now = t.version)
    (henv : env.attrSetFails = false)
    (hcz : cursor ≠ 0)
    (hcur : cursor < timeUnixMilli t.version)
    (hup : UpsertThread s env t machineID now = (.ok b, s')) :
    ((GetChangesSince s' t.userID cursor now2).operations.filter
        (fun op => op.resource == "thread" && op.id == t.id))
      = [{ resource := "thread", operation := "update", id := t.id, machineID := machineID,
           data := some (.thread t), timestamp := timeUnixMilli t.version }] := by
  have hs' : s' = storeMachineIDForChange (saveThread s t) env "thread" t.id machineID now := by
    cases hg : getThread s t.userID t.id with
    | none =>
        rw [UpsertThread, hg] at hup
        exact (congrArg Prod.snd hup).symm
    | some ex =>
        rw [UpsertThread, hg] at hup
        dsimp only at hup
        by_cases hle : t.version ≤ ex.version
        · rw [if_pos hle] at hup
          exact absurd (congrArg Prod.fst hup) (by simp)
        · rw [if_neg hle] at hup
          exact (congrArg Prod.snd hup).symm
  subst hs'
  have hthreads : (storeMachineIDForChange (saveThread s t) env "thread" t.id machineID
      now).threads = alistSet (t.userID, t.id) t s.threads := by
    simp
  have hmids : (storeMachineIDForChange (saveThread s t) env "thread" t.id machineID
      now).machineIDs = alistSet ("thread", t.id, t.version) machineID s.machineIDs := by
    rw [machineIDs_storeMachineIDForChange_ok _ _ _ _ _ _ henv, halign]
    rfl
  simp only [GetChangesSince, if_neg hcz]
  unfold incrementalOps GetThreads
  rw [List.filter_append, List.filter_append, List.filter_append, List.filter_append,
    filter_threadPred_providerInstancesOps, filter_threadPred_disabledModelsOps,
    filter_threadPred_advancedSettingsOps, filter_threadPred_getMessageChangesSince,
    List.append_nil, List.append_nil, List.append_nil, List.append_nil,
    filter_threadPred_map_mkThreadOp, hthreads,
    threadsOf_filter_set s.threads hWF t cursor, if_pos hcur]
  simp [mkThreadOp, getMachineIDForChange, hmids]

/-- C1 amended witness: with an aligned clock (write instant 1000 ms,
version 1000) the incremental sync from cursor 500 ms returns the single
thread operation attributed to device M. -/
theorem c1_echo_roundtrip_aligned_witness :
    ThreadsWF emptyStore.threads
    ∧ unixMilliOf (timeUnixMilli 1000) = 1000
    ∧ noFail.attrSetFails = false
    ∧ timeUnixMilli 500 ≠ 0
    ∧ timeUnixMilli 500 < timeUnixMilli 1000
    ∧ ((GetChangesSince
          (UpsertThread emptyStore noFail
            { id := "T", userID := "U", version := 1000, payload := "a" } "M"
            (timeUnixMilli 1000)).2
          "U" (timeUnixMilli 500) (timeUnixMilli 3000)).operations.filter
        (fun op => op.resource == "thread" && op.id == "T"))
      = [{ resource := "thread", operation := "update", id := "T", machineID := "M",
           data := some (.thread { id := "T", userID := "U", version := 1000, payload := "a" }),
           timestamp := timeUnixMilli 1000 }] :=
  ⟨⟨List.nodup_nil, fun p hp => absurd hp (List.not_mem_nil p)⟩, by decide, rfl, by decide,
   by decide,
   c1_echo_roundtrip_aligned emptyStore noFail
     { id := "T", userID := "U", version := 1000, payload := "a" } "M"
     (timeUnixMilli 1000) (timeUnixMilli 500) (timeUnixMilli 3000) true _
     ⟨List.nodup_nil, fun p hp => absurd hp (List.not_mem_nil p)⟩
     (by decide) rfl (by decide) (by decide) rfl⟩

/-- The store of the C3 analysis: user U owns thread TU; a message mv lives
under thread TV, which U does not own. -/
def c3Store : Store :=
  { emptyStore with
      threads := [(("U", "TU"), { id := "TU", userID := "U", version := 1000, payload := "tu" })],
      messages := [(("TV", "mv"), { id := "mv", payload := "vsecret" })] }

/-- C3: the code diverges from the claim in two ways.  A genuinely zero
cursor does take the full branch with no operations, but the message
snapshot, built from KEYS messages:*, contains the message of thread TV even
though U owns no such thread — not only messages of threads owned by the
requester.  And the integer cursor 0 of the /changes-since endpoint becomes
time.UnixMilli(0), which is not the zero time, so it takes the incremental
path and returns operations instead of snapshots. -/
theorem c3_full_sync_divergence :
    (GetChangesSince c3Store "U" 0 (timeUnixMilli 5000)).operations = []
    ∧ (GetChangesSince c3Store "U" 0 (timeUnixMilli 5000)).fullMessages
        = [{ id := "mv", payload := "vsecret" }]
    ∧ alistFind ("U", "TV") c3Store.threads = none
    ∧ handlerCursor 0 ≠ 0
    ∧ (GetChangesSince c3Store "U" (handlerCursor 0) (timeUnixMilli 5000)).fullThreads = []
    ∧ (GetChangesSince c3Store "U" (handlerCursor 0) (timeUnixMilli 5000)).fullMessages = []
    ∧ (GetChangesSince c3Store "U" (handlerCursor 0) (timeUnixMilli 5000)).operations ≠ [] := by
  refine ⟨by decide, by decide, by decide, by decide, by decide, by decide, by decide⟩

/-- C10: the message listing ignores its since parameter entirely — for every
store, thread id, offset and limit, any two values of since (absent
included) produce identical messages, total and has_more. -/
theorem c10_messages_since_ignored (s : Store) (threadID : String) (offset limit : Int)
    (since1 since2 : Option GoTime) :
    GetMessagesPaginated s threadID offset limit since1
      = GetMessagesPaginated s threadID offset limit since2 := rfl

end HeliosSync
